import Mathlib

/-!
Verification of the dotmatrix braille-image encoder.

This file gives a shallow embedding, in Lean, of the Go sources of the
`kevin-cantwell/dotmatrix` repository (braille.go, image.go, gif.go,
mjpeg.go), together with theorems settling the specification's claims.

Conventions of the embedding:
* Go machine integers become `Int`/`Nat` (no overflow is reachable in the
  modelled code paths: pixel channels are 16-bit, masks are 8-bit).
* Go `float32` arithmetic in the luminosity computation is modelled by
  exact rational arithmetic (`ℚ`) over the same expressions.
* Go slice indexing that can panic (negative index) is modelled by
  `Option`: `none` is a runtime panic.
* Writing to the output sink is modelled by returning the written data;
  write errors are not modelled (no claim concerns them).
-/

namespace Dotmatrix

set_option maxRecDepth 4000

/-! ## image.go: the three-state monochrome color (`type mono int`) -/

/-- `black mono = 1` in image.go: a filled pixel. -/
def black : Int := 1

/-- `white mono = 0` in image.go: an empty pixel. -/
def white : Int := 0

/-- `transparent mono = -1` in image.go: a transparent pixel. -/
def transparent : Int := -1

/-! ## braille.go: the 8-dot cell and its code point -/

/-- `type braille [2][4]int` from braille.go.  Field `dXY` is the Go entry
`b[X][Y]`: column `X` (0 = left, 1 = right), row `Y` (0 = top). -/
structure braille where
  d00 : Nat
  d01 : Nat
  d02 : Nat
  d03 : Nat
  d10 : Nat
  d11 : Nat
  d12 : Nat
  d13 : Nat
  deriving DecidableEq, Repr

/-- `braille.codePoint` from braille.go:
`lowEndian := [8]int{b[0][0], b[0][1], b[0][2], b[1][0], b[1][1], b[1][2], b[0][3], b[1][3]}`,
then `v += x << i` over the indexed entries, and `rune(v) + 0x2800`. -/
def codePoint (b : braille) : Nat :=
  let lowEndian : List Nat := [b.d00, b.d01, b.d02, b.d10, b.d11, b.d12, b.d03, b.d13]
  (lowEndian.enum.foldl (fun v p => v + p.2 <<< p.1) 0) + 0x2800

/-- The 8-bit mask described by the spec: dot positions in the fixed order
top-left, mid1-left, mid2-left, top-right, mid1-right, mid2-right,
bottom-left, bottom-right mapped to little-endian bit indices 0..7. -/
def maskOf (b : braille) : Nat :=
  b.d00 + 2 * b.d01 + 4 * b.d02 + 8 * b.d10 + 16 * b.d11 + 32 * b.d12 +
    64 * b.d03 + 128 * b.d13

/-- Bit `i` of `m`, as a 0/1 dot entry. -/
def bitv (m i : Nat) : Nat := if m.testBit i then 1 else 0

/-- The 2x4 block whose binary fill pattern is the 8-bit mask `m`, with the
spec's fixed position-to-bit-index order. -/
def brailleOfMask (m : Nat) : braille :=
  { d00 := bitv m 0, d01 := bitv m 1, d02 := bitv m 2, d03 := bitv m 6
    d10 := bitv m 3, d11 := bitv m 4, d12 := bitv m 5, d13 := bitv m 7 }

/-- A block is binary when every dot entry is 0 or 1 (the encoder only ever
writes 0 or 1 into a `braille` value). -/
def braille.binary (b : braille) : Prop :=
  b.d00 ≤ 1 ∧ b.d01 ≤ 1 ∧ b.d02 ≤ 1 ∧ b.d03 ≤ 1 ∧
    b.d10 ≤ 1 ∧ b.d11 ≤ 1 ∧ b.d12 ≤ 1 ∧ b.d13 ≤ 1

instance (b : braille) : Decidable b.binary := by
  unfold braille.binary; infer_instance

/-! ## image.go: configuration and the monochrome classifier -/

/-- `type Config struct { Luminosity float32; Inverted bool }` from image.go.
`float32` is modelled as `ℚ`. -/
structure Config where
  luminosity : ℚ
  inverted : Bool

/-- `DefaultConfig = Config{Luminosity: 0.5, Inverted: false}` from image.go. -/
def DefaultConfig : Config := { luminosity := 1/2, inverted := false }

/-- `type colorModel struct { luminosity float32; inverted bool }` from image.go. -/
structure colorModel where
  luminosity : ℚ
  inverted : Bool

/-- A color sample as returned by Go's `color.Color.RGBA()`:
alpha-premultiplied 16-bit channels (values in `0..0xffff`). -/
structure RGBA where
  r : Nat
  g : Nat
  b : Nat
  a : Nat

/-- `colorModel.Convert` from image.go: transparent on zero alpha, else the
luminosity comparison `float32(0xffff)*(1-m.luminosity) < gray` with
`gray = 0.21r + 0.72g + 0.07b`, with inversion applied to the outcome. -/
def colorModel.Convert (m : colorModel) (c : RGBA) : Int :=
  if c.a = 0 then transparent
  else
    if (65535 : ℚ) * (1 - m.luminosity) <
        21/100 * (c.r : ℚ) + 72/100 * (c.g : ℚ) + 7/100 * (c.b : ℚ) then
      (if !m.inverted then white else black)
    else
      (if !m.inverted then black else white)

/-! ## image.go: the converted Image and its pixel lookup -/

/-- `image.Rectangle`: min is inclusive, max exclusive. -/
structure Rectangle where
  minX : Int
  minY : Int
  maxX : Int
  maxY : Int
  deriving DecidableEq, Repr

/-- `type Image struct { model colorModel; bounds image.Rectangle;
pixels []color.Color; stride int }` from image.go.  The pixel slice holds
`mono` values, modelled as `Int`. -/
structure Image where
  model : colorModel
  bounds : Rectangle
  pixels : List Int
  stride : Int

/-- `Image.at` from image.go:
`x -= minX; y -= minY; i := y*stride + x; if i < len(pixels) { return pixels[i] }
return transparent`.  A negative flat index passes the `i < len` test and then
panics at `pixels[i]`; the panic is modelled as `none`. -/
def Image.atPixel (img : Image) (x y : Int) : Option Int :=
  let x' := x - img.bounds.minX
  let y' := y - img.bounds.minY
  let i := y' * img.stride + x'
  if i < (img.pixels.length : Int) then
    if 0 ≤ i then some (img.pixels.getD i.toNat 0) else none
  else some transparent

/-! ## image.go: convert -/

/-- The argument of `ImageEncoder.Encode` / `convert`: either an `*Image`
that was already converted (the type assertion `img.(*Image)` succeeds), or
a raw image given by its bounds and a sample accessor `At`. -/
inductive GoImage where
  | converted (img : Image)
  | raw (bounds : Rectangle) (atF : Int → Int → RGBA)

/-- The raw-image branch of `convert` from image.go: classify every sample
in row-major order (y outer, x inner, starting at the bounds minimum) and
record bounds, stride `Dx` and the color model built from the config. -/
def convertRaw (bounds : Rectangle) (atF : Int → Int → RGBA) (config : Config) : Image :=
  let model : colorModel := { luminosity := config.luminosity, inverted := config.inverted }
  let dx := (bounds.maxX - bounds.minX).toNat
  let dy := (bounds.maxY - bounds.minY).toNat
  { model := model
    bounds := bounds
    pixels := (List.range dy).flatMap (fun (yy : Nat) => (List.range dx).map (fun (xx : Nat) =>
      model.Convert (atF (bounds.minX + (xx : Int)) (bounds.minY + (yy : Int)))))
    stride := bounds.maxX - bounds.minX }

/-- `convert` from image.go: an input that is already a `*Image` is returned
unchanged; otherwise every sample is classified. -/
def convert : GoImage → Config → Image
  | GoImage.converted img, _ => img
  | GoImage.raw bounds atF, config => convertRaw bounds atF config

/-! ## image.go: ImageEncoder.Encode -/

/-- The dot value the encoder writes for a looked-up pixel `clr`:
`if clr == black || (clr == transparent && enc.config.Inverted) { b[x][y] = 1 }`
(entries default to 0). -/
def dotValue (config : Config) (clr : Int) : Nat :=
  if clr = black ∨ (clr = transparent ∧ config.inverted = true) then 1 else 0

/-- One 2x4 block of `ImageEncoder.Encode` from image.go: look up the eight
pixels at `(px+x, py+y)` and build the `braille` value.  If any lookup
panics, the whole encode panics (`none`). -/
def encodeBlock (img : Image) (config : Config) (px py : Int) : Option braille :=
  match img.atPixel px py, img.atPixel px (py+1), img.atPixel px (py+2), img.atPixel px (py+3),
        img.atPixel (px+1) py, img.atPixel (px+1) (py+1), img.atPixel (px+1) (py+2),
        img.atPixel (px+1) (py+3) with
  | some c00, some c01, some c02, some c03, some c10, some c11, some c12, some c13 =>
      some { d00 := dotValue config c00, d01 := dotValue config c01
             d02 := dotValue config c02, d03 := dotValue config c03
             d10 := dotValue config c10, d11 := dotValue config c11
             d12 := dotValue config c12, d13 := dotValue config c13 }
  | _, _, _, _, _, _, _, _ => none

/-- The loop body of `ImageEncoder.Encode` from image.go: scan block rows
(`py` stepping by 4 from `minY` while `< maxY`) and block columns (`px`
stepping by 2 from `minX` while `< maxX`), emitting one code point per
block.  The result is the list of emitted lines (a `\n` is written after
each block row); `none` is a panic. -/
def encodeImage (img : Image) (config : Config) : Option (List (List Nat)) :=
  (List.range (((img.bounds.maxY - img.bounds.minY).toNat + 3) / 4)).mapM (fun (r : Nat) =>
    (List.range (((img.bounds.maxX - img.bounds.minX).toNat + 1) / 2)).mapM (fun (c : Nat) =>
      (encodeBlock img config (img.bounds.minX + 2 * (c : Int))
        (img.bounds.minY + 4 * (r : Int))).map codePoint))

/-- `ImageEncoder.Encode` from image.go: `img := convert(input, enc.config)`,
then the block scan over `img.Bounds()`. -/
def Encode (config : Config) (input : GoImage) : Option (List (List Nat)) :=
  encodeImage (convert input config) config

/-- `dotOf b x y` reads the Go entry `b[x][y]` of a `braille` value. -/
def dotOf (b : braille) (x y : Nat) : Nat :=
  match x, y with
  | 0, 0 => b.d00
  | 0, 1 => b.d01
  | 0, 2 => b.d02
  | 0, 3 => b.d03
  | 1, 0 => b.d10
  | 1, 1 => b.d11
  | 1, 2 => b.d12
  | 1, 3 => b.d13
  | _, _ => 0

/-- Refinement spec for the Monochrome Classifier, following the claim's
words: Transparent when the alpha channel is zero regardless of color;
otherwise Filled iff `L ≤ 0xffff * (1 - luminosity)` with
`L = 0.21 R + 0.72 G + 0.07 B`, Empty otherwise; `inverted` swaps the
Filled/Empty outcome while Transparent is unaffected. -/
def claimClassify (m : colorModel) (c : RGBA) : Int :=
  if c.a = 0 then transparent
  else
    if m.inverted then
      (if 21/100 * (c.r : ℚ) + 72/100 * (c.g : ℚ) + 7/100 * (c.b : ℚ) ≤
          (65535 : ℚ) * (1 - m.luminosity) then white else black)
    else
      (if 21/100 * (c.r : ℚ) + 72/100 * (c.g : ℚ) + 7/100 * (c.b : ℚ) ≤
          (65535 : ℚ) * (1 - m.luminosity) then black else white)

/-! ## Concrete inputs used by claim scenarios -/

/-- The 2x4 scenario image of claim C5: left column pure black samples,
right column pure white samples. -/
def c5input : GoImage :=
  GoImage.raw { minX := 0, minY := 0, maxX := 2, maxY := 4 }
    (fun x _ => if x = 0 then { r := 0, g := 0, b := 0, a := 0xffff }
                else { r := 0xffff, g := 0xffff, b := 0xffff, a := 0xffff })

/-- The claim C3 scenario: a 1x4 strip of all-Filled (pure black) samples,
i.e. an odd-width image whose single block straddles the right edge. -/
def c3input : GoImage :=
  GoImage.raw { minX := 0, minY := 0, maxX := 1, maxY := 4 }
    (fun _ _ => { r := 0, g := 0, b := 0, a := 0xffff })

/-- The result of converting `c5input` under the default configuration:
left column Filled, right column Empty. -/
def c5conv : Image :=
  { model := { luminosity := 1/2, inverted := false }
    bounds := { minX := 0, minY := 0, maxX := 2, maxY := 4 }
    pixels := [1, 0, 1, 0, 1, 0, 1, 0]
    stride := 2 }

/-- Converting the C5 scenario image classifies the left column Filled and
the right column Empty. -/
theorem c5input_convert_eval : convert c5input DefaultConfig = c5conv := by
  simp only [convert, convertRaw, c5input, DefaultConfig, c5conv]
  norm_num
  simp only [show ((4 : Int).toNat) = 4 from rfl, show ((2 : Int).toNat) = 2 from rfl]
  norm_num [colorModel.Convert, black, white, List.range_succ,
    List.flatMap_cons, List.flatMap_nil, List.map_cons, List.map_nil]

/-- The result of converting `c3input` under the default configuration:
all four pixels Filled. -/
def c3conv : Image :=
  { model := { luminosity := 1/2, inverted := false }
    bounds := { minX := 0, minY := 0, maxX := 1, maxY := 4 }
    pixels := [1, 1, 1, 1]
    stride := 1 }

/-- Converting the C3 strip classifies every pixel Filled. -/
theorem c3input_convert_eval : convert c3input DefaultConfig = c3conv := by
  simp only [convert, convertRaw, c3input, DefaultConfig, c3conv]
  norm_num
  simp only [show ((4 : Int).toNat) = 4 from rfl, show ((1 : Int).toNat) = 1 from rfl]
  norm_num [colorModel.Convert, black, white, List.range_succ,
    List.flatMap_cons, List.flatMap_nil, List.map_cons, List.map_nil]

/-- A 1x4 monochrome buffer with pixels white, black, white, black in
row-major order (rows (0,0), (0,1), (0,2), (0,3)). -/
def c4img : Image :=
  { model := { luminosity := 1/2, inverted := false }
    bounds := { minX := 0, minY := 0, maxX := 1, maxY := 4 }
    pixels := [0, 1, 0, 1]
    stride := 1 }

/-- A 2x4 already-converted image whose pixels are all transparent. -/
def transImg : Image :=
  { model := { luminosity := 1/2, inverted := true }
    bounds := { minX := 0, minY := 0, maxX := 2, maxY := 4 }
    pixels := [-1, -1, -1, -1, -1, -1, -1, -1]
    stride := 2 }

/-- The inverted configuration used in the C2 counterexample. -/
def invConfig : Config := { luminosity := 1/2, inverted := true }

/-! ## gif.go: GIFAnimator.Animate -/

/-- An observable output action of `GIFAnimator.Animate` (gif.go): a call to
`flushBraille` while processing source frame `i`, the receive on the frame's
delay timer (`<-delay`, recording the raw `giff.Delay[i]` value in
hundredths of a second), or a `resetCursor` write. -/
inductive GEvent where
  | flush (i : Nat)
  | delayWait (d : Int)
  | reset (rows : Int)
  deriving DecidableEq, Repr

/-- The fields of `*gif.GIF` that `GIFAnimator.Animate` consumes for its
control flow: the number of frames `len(giff.Image)`, the per-frame
`giff.Delay` values, `giff.LoopCount`, and `giff.Config.Height`. -/
structure GIFData where
  frames : Nat
  delays : List Int
  loopCount : Int
  height : Int

/-- The outer loop condition of Animate:
`for c := 0; giff.LoopCount == 0 || c < giff.LoopCount; c++`. -/
def loopCond (loopCount : Int) (c : Int) : Bool :=
  loopCount == 0 || c < loopCount

/-- `rows := giff.Config.Height / 4; if giff.Config.Height%4 != 0 { rows++ }`
from Animate (Go `/` and `%` truncate toward zero). -/
def rowsOf (g : GIFData) : Int :=
  g.height.tdiv 4 + (if g.height.tmod 4 ≠ 0 then 1 else 0)

/-- The events of one iteration of Animate's inner frame loop: the delay
timer is started first, then every disposal branch composites, calls
`flushBraille` exactly once and receives `<-delay`, and `resetCursor` runs
after the switch. -/
def frameIter (g : GIFData) (i : Nat) : List GEvent :=
  [GEvent.flush i, GEvent.delayWait (g.delays.getD i 0), GEvent.reset (rowsOf g)]

/-- The event trace of `GIFAnimator.Animate` (gif.go): return with no output
if `len(giff.Image) < 1`; a `LoopCount` of zero makes `loopCond` true for
every counter value, so the loop never terminates (modelled `none`);
otherwise the outer loop body runs `LoopCount.toNat` times (zero times for a
negative count) and the inner loop walks the frames in source order. -/
def animateTrace (g : GIFData) : Option (List GEvent) :=
  if g.frames < 1 then some []
  else if g.loopCount = 0 then none
  else some ((List.range g.loopCount.toNat).flatMap (fun _ =>
    (List.range g.frames).flatMap (fun i => frameIter g i)))

/-- Project a flush event to its frame index. -/
def flushIdx : GEvent → Option Nat
  | GEvent.flush i => some i
  | _ => none

/-! ## gif.go: the screen buffer and disposal compositing -/

/-- An `*image.Paletted` as used by Animate: bounds plus a pixel-color map.
Color values are `Int` codes; `transparent` is `color.Transparent`. -/
structure Grid where
  bounds : Rectangle
  pix : Int → Int → Int

/-- Membership of a point in a rectangle (`image.Point.In`). -/
def inBounds (r : Rectangle) (x y : Int) : Bool :=
  decide (r.minX ≤ x ∧ x < r.maxX ∧ r.minY ≤ y ∧ y < r.maxY)

/-- `image.Paletted.Set`: writes are clipped to the target's bounds. -/
def Grid.set (g : Grid) (x y : Int) (c : Int) : Grid :=
  if inBounds g.bounds x y then
    { g with pix := fun a b => if a = x ∧ b = y then c else g.pix a b }
  else g

/-- `At` on a grid (the modelled draw loops only read inside the source's
own bounds). -/
def Grid.atColor (g : Grid) (x y : Int) : Int := g.pix x y

/-- The points of a rectangle in the iteration order of the draw loops
(y outer from `minY`, x inner from `minX`). -/
def rectPoints (r : Rectangle) : List (Int × Int) :=
  (List.range (r.maxY - r.minY).toNat).flatMap (fun (yy : Nat) =>
    (List.range (r.maxX - r.minX).toNat).map (fun (xx : Nat) =>
      (r.minX + (xx : Int), r.minY + (yy : Int))))

/-- The common shape of the two draw loops of gif.go: visit each point,
compute an optional value to write (`none` = the loop's `continue`), and
`Set` it into the target. -/
def drawLoop (target : Grid) (ps : List (Int × Int)) (wv : Int × Int → Option Int) : Grid :=
  ps.foldl (fun t p =>
    match wv p with
    | none => t
    | some c => t.set p.1 p.2 c) target

/-- `GIFAnimator.drawOver` (gif.go): copy every non-transparent source pixel
over the target, skipping pixels equal to `color.Transparent`. -/
def drawOver (target source : Grid) : Grid :=
  drawLoop target (rectPoints source.bounds)
    (fun p => if source.atColor p.1 p.2 = transparent then none
              else some (source.atColor p.1 p.2))

/-- `GIFAnimator.drawExact` (gif.go): copy every source pixel over the
target, including transparent ones. -/
def drawExact (target source : Grid) : Grid :=
  drawLoop target (rectPoints source.bounds)
    (fun p => some (source.atColor p.1 p.2))

/-- The `gif.DisposalBackground` branch of Animate (gif.go):
`drawExact(screen, background)`; copy `screen` into `temp`; `drawOver(screen,
frame)`; flush; wait; `screen = temp`.  Returns (screen after the iteration,
the grid that was flushed). -/
def backgroundIter (screen frame background : Grid) : Grid × Grid :=
  (drawExact screen background, drawOver (drawExact screen background) frame)

/-! ## mjpeg.go: the frame-rate delay of mjpegStreamer.ReadAll -/

/-- The per-frame delay duration computed by `mjpegStreamer.ReadAll`
(mjpeg.go): `time.After(time.Second / time.Duration(mjpeg.fps))`, in
nanoseconds.  Go integer division truncates toward zero and panics on a
zero divisor (modelled `none`). -/
def mjpegDelayDur (fps : Int) : Option Int :=
  if fps = 0 then none else some ((1000000000 : Int).tdiv fps)

/-- An observable action of the `ReadAll` goroutine at a detected frame
boundary (mjpeg.go): the unbuffered channel send `frames <- frame`
succeeding (`emit`), the default branch of the `select` running
`buf.Truncate(0)` and abandoning the decoded frame (`discard`), or the
receive `<-delay` on the running delay timer (`waitDelay` records the
timer's duration). -/
inductive MEvent where
  | emit (i : Nat)
  | discard (i : Nat)
  | waitDelay (d : Int)
  deriving DecidableEq, Repr

/-- The frame-boundary trace of `mjpegStreamer.ReadAll` (mjpeg.go) over `n`
decoded frames.  The delay duration `time.Second / time.Duration(fps)` is
computed before the read loop, so a zero divisor panics before any frame is
handled (`none`).  At each frame boundary the `select` sends the decoded
frame exactly when the consumer is blocked on a receive — `ready i` is the
scheduling input saying whether the unbuffered send can proceed at that
instant — and then waits out the delay timer; otherwise the `default`
branch truncates the buffer, so the decoded frame is discarded, never
emitted.  The timer is restarted with the same duration after every
boundary.  Cancellation (`ctx.Done`) is not modelled. -/
def readAllTrace (fps : Int) (ready : Nat → Bool) (n : Nat) : Option (List MEvent) :=
  match mjpegDelayDur fps with
  | none => none
  | some d => some ((List.range n).flatMap (fun i =>
      if ready i then [MEvent.emit i, MEvent.waitDelay d] else [MEvent.discard i]))

/-- Project an emit event to its frame index. -/
def emitIdx : MEvent → Option Nat
  | MEvent.emit i => some i
  | _ => none

/-! ## Helper lemmas -/

/-- The frames emitted across a run of frame boundaries are exactly the
ones whose send was ready, in source order. -/
theorem filterMap_emitIdx_ready (ready : Nat → Bool) (d : Int) (l : List Nat) :
    (l.flatMap (fun i =>
        if ready i then [MEvent.emit i, MEvent.waitDelay d]
        else [MEvent.discard i])).filterMap emitIdx =
      l.filter (fun i => ready i) := by
  induction l with
  | nil => simp
  | cons a tl ih =>
    cases hr : ready a <;>
      simp [List.flatMap_cons, List.filterMap_append, List.filterMap_cons, hr, ih,
        emitIdx, List.filter_cons]

/-- `Grid.set` never changes the bounds. -/
theorem Grid.set_bounds (g : Grid) (x y : Int) (c : Int) :
    (g.set x y c).bounds = g.bounds := by
  unfold Grid.set
  split <;> rfl

/-- One `drawLoop` step at point `p` read back at `(x, y)`. -/
theorem drawLoop_step_pix (t : Grid) (p : Int × Int) (wv : Int × Int → Option Int)
    (x y : Int) :
    ((match wv p with
      | none => t
      | some c => t.set p.1 p.2 c) : Grid).pix x y =
      if (x, y) = p ∧ inBounds t.bounds x y = true ∧ (wv (x, y)).isSome = true then
        (wv (x, y)).getD 0
      else t.pix x y := by
  rcases p with ⟨a, b⟩
  by_cases hp : ((x, y) : Int × Int) = (a, b)
  · simp only [Prod.mk.injEq] at hp
    obtain ⟨rfl, rfl⟩ := hp
    rcases hw : wv (x, y) with _ | c
    · simp [hw]
    · simp only [hw, Option.isSome_some, Option.getD_some, and_true]
      unfold Grid.set
      by_cases hin : inBounds t.bounds x y = true <;> simp [hin]
  · have hne : ¬(x = a ∧ y = b) := by
      intro ⟨hxa, hyb⟩
      exact hp (by simp [hxa, hyb])
    rcases hw : wv (a, b) with _ | c
    · simp [hw, hp]
    · unfold Grid.set
      by_cases hin : inBounds t.bounds a b = true <;> simp [hin, hp, hne]

/-- The pixel read back after a whole `drawLoop`: a visited point in bounds
with a produced value holds that value (the value is a function of the point
alone, so repeated visits are consistent); all other points keep the
target's pixel. -/
theorem drawLoop_pix (ps : List (Int × Int)) (t : Grid) (wv : Int × Int → Option Int)
    (x y : Int) :
    (drawLoop t ps wv).pix x y =
      if (x, y) ∈ ps ∧ inBounds t.bounds x y = true ∧ (wv (x, y)).isSome = true then
        (wv (x, y)).getD 0
      else t.pix x y := by
  induction ps generalizing t with
  | nil => simp [drawLoop]
  | cons p ps ih =>
    have hstep : ∀ u : Grid,
        ((match wv p with
          | none => u
          | some c => u.set p.1 p.2 c) : Grid).bounds = u.bounds := by
      intro u
      rcases wv p with _ | c
      · rfl
      · exact Grid.set_bounds u p.1 p.2 c
    unfold drawLoop
    rw [List.foldl_cons]
    have := ih (match wv p with
      | none => t
      | some c => t.set p.1 p.2 c)
    unfold drawLoop at this
    rw [this, hstep, drawLoop_step_pix]
    by_cases hmem : (x, y) ∈ ps <;>
      by_cases hin : inBounds t.bounds x y = true <;>
      by_cases hs : (wv (x, y)).isSome = true <;>
      by_cases hp : ((x, y) : Int × Int) = p <;>
      simp_all [List.mem_cons]

/-- A point is in `rectPoints r` iff it lies inside the rectangle. -/
theorem mem_rectPoints (r : Rectangle) (x y : Int) :
    (x, y) ∈ rectPoints r ↔ inBounds r x y = true := by
  unfold rectPoints inBounds
  simp only [List.mem_flatMap, List.mem_map, List.mem_range, decide_eq_true_eq,
    Prod.mk.injEq]
  constructor
  · rintro ⟨yy, hyy, xx, hxx, hx, hy⟩
    omega
  · rintro ⟨h1, h2, h3, h4⟩
    exact ⟨(y - r.minY).toNat, by omega, (x - r.minX).toNat, by omega, by omega, by omega⟩


/-- `filterMap` distributes over `flatMap`. -/
theorem filterMap_flatMap_list {α β γ : Type} (l : List α) (f : α → List β)
    (p : β → Option γ) :
    (l.flatMap f).filterMap p = l.flatMap (fun a => (f a).filterMap p) := by
  induction l with
  | nil => simp
  | cons a l ih => simp [List.flatMap_cons, List.filterMap_append, ih]

/-- The flush events of a run of frame iterations are the frame indices. -/
theorem filterMap_flushIdx_frameIter (g : GIFData) (is : List Nat) :
    (is.flatMap (frameIter g)).filterMap flushIdx = is := by
  rw [filterMap_flatMap_list]
  have h : ∀ i, ((frameIter g i).filterMap flushIdx) = [i] := by
    intro i
    simp [frameIter, flushIdx, List.filterMap_cons]
  simp only [h]
  induction is with
  | nil => rfl
  | cons a l ih => simp [List.flatMap_cons, ih]

/-- In a run of frame iterations, every flush is followed two events later
by the cursor reposition of its frame. -/
theorem flush_then_reset (g : GIFData) (is : List Nat) :
    ∀ k i, ((is.flatMap (frameIter g)))[k]? = some (GEvent.flush i) →
      ((is.flatMap (frameIter g)))[k + 2]? = some (GEvent.reset (rowsOf g)) := by
  induction is with
  | nil => intro k i h; simp at h
  | cons a tl ih =>
    intro k i h
    have hexp : (a :: tl).flatMap (frameIter g) =
        GEvent.flush a :: GEvent.delayWait (g.delays.getD a 0) ::
          GEvent.reset (rowsOf g) :: tl.flatMap (frameIter g) := by
      simp [List.flatMap_cons, frameIter]
    rw [hexp] at h ⊢
    match k with
    | 0 => simp
    | 1 => simp at h
    | 2 => simp at h
    | (k + 3) =>
      simp only [List.getElem?_cons_succ] at h ⊢
      exact ih k i h

/-- The length of a constant `flatMap`. -/
theorem length_flatMap_const {α β : Type} (l : List α) (m : List β) :
    (l.flatMap (fun _ => m)).length = l.length * m.length := by
  induction l with
  | nil => simp
  | cons a tl ih => simp [List.flatMap_cons, ih, Nat.succ_mul, Nat.add_comm]

/-! ## Claim theorems -/

/-- C1: the code point of every binary 2x4 block equals `0x2800` plus the
8-bit mask mapping the dot positions, in the fixed order top-left,
mid1-left, mid2-left, top-right, mid1-right, mid2-right, bottom-left,
bottom-right, to little-endian bit indices 0..7; the mask is 8-bit; and for
all 256 fill patterns, `codePoint - 0x2800` reproduces the mask (round
trip). -/
theorem c1_glyph_mask_roundtrip (b : braille) (hb : b.binary) :
    codePoint b = 0x2800 + maskOf b ∧ maskOf b < 256 ∧
      codePoint b - 0x2800 = maskOf b ∧
      (∀ m : Fin 256, codePoint (brailleOfMask m.val) = 0x2800 + m.val) := by
  obtain ⟨h0, h1, h2, h3, h4, h5, h6, h7⟩ := hb
  have hcp : codePoint b = 0x2800 + maskOf b := by
    simp [codePoint, maskOf, Nat.shiftLeft_eq, List.enum]
    ring
  refine ⟨hcp, by unfold maskOf; omega, by omega, ?_⟩
  decide

/-- Witness for C1 at the all-raised block. -/
theorem c1_glyph_mask_roundtrip_check :
    braille.binary { d00 := 1, d01 := 1, d02 := 1, d03 := 1
                     d10 := 1, d11 := 1, d12 := 1, d13 := 1 } ∧
      (codePoint { d00 := 1, d01 := 1, d02 := 1, d03 := 1
                   d10 := 1, d11 := 1, d12 := 1, d13 := 1 } =
          0x2800 + maskOf { d00 := 1, d01 := 1, d02 := 1, d03 := 1
                            d10 := 1, d11 := 1, d12 := 1, d13 := 1 } ∧
        maskOf { d00 := 1, d01 := 1, d02 := 1, d03 := 1
                 d10 := 1, d11 := 1, d12 := 1, d13 := 1 } < 256 ∧
        codePoint { d00 := 1, d01 := 1, d02 := 1, d03 := 1
                    d10 := 1, d11 := 1, d12 := 1, d13 := 1 } - 0x2800 =
          maskOf { d00 := 1, d01 := 1, d02 := 1, d03 := 1
                   d10 := 1, d11 := 1, d12 := 1, d13 := 1 } ∧
        (∀ m : Fin 256, codePoint (brailleOfMask m.val) = 0x2800 + m.val)) :=
  ⟨by decide,
    c1_glyph_mask_roundtrip
      { d00 := 1, d01 := 1, d02 := 1, d03 := 1
        d10 := 1, d11 := 1, d12 := 1, d13 := 1 } (by decide)⟩

/-- C2 counterexample: on an all-transparent 2x4 image with `inverted=true`,
the encoder raises every dot (glyph U+28FF), although no pixel is Filled;
the claim predicts the blank glyph U+2800. -/
theorem c2_counterexample :
    Encode invConfig (GoImage.converted transImg) = some [[0x28FF]] ∧
      Encode invConfig (GoImage.converted transImg) ≠ some [[0x2800]] := by
  constructor
  · decide
  · decide

/-- C2 amended: a dot is raised (bit 1) iff the looked-up three-state pixel
is Filled, or it is Transparent and `inverted` is set; a Transparent pixel
yields bit 0 only when `inverted` is false. -/
theorem c2_amended_dot_rule (img : Image) (config : Config) (px py : Int)
    (b : braille) (h : encodeBlock img config px py = some b)
    (x y : Nat) (hx : x < 2) (hy : y < 4) :
    dotOf b x y = 1 ↔
      (img.atPixel (px + (x : Int)) (py + (y : Int)) = some black ∨
        (img.atPixel (px + (x : Int)) (py + (y : Int)) = some transparent ∧
          config.inverted = true)) := by
  unfold encodeBlock at h
  split at h
  case _ c00 c01 c02 c03 c10 c11 c12 c13 h00 h01 h02 h03 h10 h11 h12 h13 =>
    rw [Option.some.injEq] at h
    subst h
    interval_cases x <;> interval_cases y <;>
      simp only [dotOf, dotValue, Int.Nat.cast_ofNat_Int, Nat.cast_zero,
        Nat.cast_one, Nat.cast_ofNat, add_zero] <;>
      first
        | (rw [h00]; split <;> simp_all)
        | (rw [h01]; split <;> simp_all)
        | (rw [h02]; split <;> simp_all)
        | (rw [h03]; split <;> simp_all)
        | (rw [h10]; split <;> simp_all)
        | (rw [h11]; split <;> simp_all)
        | (rw [h12]; split <;> simp_all)
        | (rw [h13]; split <;> simp_all)
  case _ =>
    exact absurd h (by simp)

/-- Witness for the amended C2 rule: the all-transparent inverted block. -/
theorem c2_amended_dot_rule_check :
    encodeBlock transImg invConfig 0 0 =
        some { d00 := 1, d01 := 1, d02 := 1, d03 := 1
               d10 := 1, d11 := 1, d12 := 1, d13 := 1 } ∧
      (0 : Nat) < 2 ∧ (0 : Nat) < 4 ∧
      (dotOf { d00 := 1, d01 := 1, d02 := 1, d03 := 1
               d10 := 1, d11 := 1, d12 := 1, d13 := 1 } 0 0 = 1 ↔
        (transImg.atPixel (0 + ((0 : Nat) : Int)) (0 + ((0 : Nat) : Int)) = some black ∨
          (transImg.atPixel (0 + ((0 : Nat) : Int)) (0 + ((0 : Nat) : Int)) = some transparent ∧
            invConfig.inverted = true))) :=
  ⟨by decide, by decide, by decide,
    c2_amended_dot_rule transImg invConfig 0 0 _ (by decide) 0 0 (by decide) (by decide)⟩

/-- C3: on the claim's own failing scenario — a 1x4 all-Filled strip, so the
single block straddles the right edge — the encoder emits U+287F: besides
the left column dots {1,2,3,7}, the out-of-range right column positions
(1,0), (1,1), (1,2) read the in-bounds pixels stored for (0,1), (0,2), (0,3)
through the flat index `y*stride + x`, raising dots {4,5,6}.  The claim
(and the spec) require U+2847 with the right column unraised. -/
theorem c3_edge_block_eval :
    Encode DefaultConfig c3input = some [[0x287F]] ∧
      Encode DefaultConfig c3input ≠ some [[0x2847]] := by
  have h : Encode DefaultConfig c3input = some [[0x287F]] := by
    rw [Encode, c3input_convert_eval]; decide
  exact ⟨h, by rw [h]; decide⟩

/-- C4: out-of-bounds lookups do not yield Transparent reliably: on a 1x4
buffer, the out-of-bounds coordinate (1,0) returns the pixel stored for the
in-bounds coordinate (0,1) (flat index 1), and the coordinate (-1,0) panics
(negative slice index, modelled `none`); the claim requires Transparent and
no failure in both cases. -/
theorem c4_out_of_bounds_eval :
    c4img.atPixel 1 0 = some black ∧
      c4img.atPixel 1 0 = c4img.atPixel 0 1 ∧
      c4img.atPixel 1 0 ≠ some transparent ∧
      c4img.atPixel (-1) 0 = none := by
  refine ⟨by decide, by decide, by decide, by decide⟩

/-- C5 counterexample: the 2x4 black-left/white-right scenario under the
default configuration encodes to U+2847 (dots 1,2,3,7: the whole left
column), not U+2807 (dots 1,2,3) as the claim states. -/
theorem c5_counterexample :
    Encode DefaultConfig c5input ≠ some [[0x2807]] := by
  have h : Encode DefaultConfig c5input = some [[0x2847]] := by
    rw [Encode, c5input_convert_eval]; decide
  rw [h]; decide

/-- C5 amended: the scenario yields exactly one glyph, U+2847 (dots 1,2,3,7
raised: left column all raised, right column none), on a single line. -/
theorem c5_scenario_glyph :
    Encode DefaultConfig c5input = some [[0x2847]] := by
  rw [Encode, c5input_convert_eval]; decide

/-- C6: the Monochrome Classifier agrees everywhere with the claim's
description: Transparent exactly on zero alpha regardless of color, Filled
iff the luminance is at most `0xffff * (1 - luminosity)`, Empty otherwise,
with `inverted` swapping the Filled/Empty outcome only. -/
theorem c6_classifier_spec (m : colorModel) (c : RGBA) :
    colorModel.Convert m c = claimClassify m c := by
  unfold colorModel.Convert claimClassify
  rcases c with ⟨r, g, b, a⟩
  by_cases ha : a = 0
  · simp [ha]
  · by_cases hlt : (65535 : ℚ) * (1 - m.luminosity) <
        21/100 * (r : ℚ) + 72/100 * (g : ℚ) + 7/100 * (b : ℚ)
    · have hnle : ¬(21/100 * (r : ℚ) + 72/100 * (g : ℚ) + 7/100 * (b : ℚ) ≤
          (65535 : ℚ) * (1 - m.luminosity)) := not_le.mpr hlt
      cases m.inverted <;> simp [ha, hlt, hnle]
    · have hle : 21/100 * (r : ℚ) + 72/100 * (g : ℚ) + 7/100 * (b : ℚ) ≤
          (65535 : ℚ) * (1 - m.luminosity) := not_lt.mp hlt
      cases m.inverted <;> simp [ha, hlt, hle]

/-- A 3-frame animation with loop count 2 (the claim's scenario). -/
def gifLoopTwo : GIFData := { frames := 3, delays := [1, 2, 3], loopCount := 2, height := 8 }

/-- A single-frame animation with loop count 1. -/
def gifSingle : GIFData := { frames := 1, delays := [10], loopCount := 1, height := 4 }

/-- C7 counterexample: a sequence with exactly one frame is not bypassed:
Animate still starts the delay timer, waits on it, and writes a cursor
reposition after the flush; the claim requires a single flush with no
cursor repositioning and no delay. -/
theorem c7_counterexample :
    animateTrace gifSingle =
        some [GEvent.flush 0, GEvent.delayWait 10, GEvent.reset 1] ∧
      animateTrace gifSingle ≠ some [GEvent.flush 0] := by
  constructor
  · decide
  · decide

/-- C7 amended: for a finite positive loop count `L`, Animate terminates
and flushes exactly `L * n` frames, in source order (`L` passes over frames
`0..n-1`); every flush is followed (two events later) by a cursor
reposition; and a loop count of zero makes the loop condition true for
every counter value, so the sequence loops forever.  (A one-frame sequence
is animated like any other; there is no bypass.) -/
theorem c7_loop_trace (g : GIFData) (hL : 0 < g.loopCount) :
    ∃ t, animateTrace g = some t ∧
      t.filterMap flushIdx =
        (List.range g.loopCount.toNat).flatMap (fun _ => List.range g.frames) ∧
      (t.filterMap flushIdx).length = g.loopCount.toNat * g.frames ∧
      (∀ k i, t[k]? = some (GEvent.flush i) →
        t[k + 2]? = some (GEvent.reset (rowsOf g))) ∧
      (∀ c : Int, loopCond 0 c = true) := by
  by_cases hf : g.frames < 1
  · refine ⟨[], ?_, ?_, ?_, ?_, ?_⟩
    · unfold animateTrace
      rw [if_pos hf]
    · have hz : g.frames = 0 := by omega
      simp [hz, List.range_zero]
    · have hz : g.frames = 0 := by omega
      simp [hz]
    · intro k i h
      simp at h
    · intro c
      simp [loopCond]
  · have hL0 : ¬(g.loopCount = 0) := by omega
    refine ⟨(List.range g.loopCount.toNat).flatMap (fun _ =>
      (List.range g.frames).flatMap (frameIter g)), ?_, ?_, ?_, ?_, ?_⟩
    · unfold animateTrace
      rw [if_neg hf, if_neg hL0]
    · rw [← List.flatMap_assoc, filterMap_flushIdx_frameIter]
    · rw [← List.flatMap_assoc, filterMap_flushIdx_frameIter,
        length_flatMap_const]
      simp [List.length_range]
    · rw [← List.flatMap_assoc]
      exact flush_then_reset g _
    · intro c
      simp [loopCond]

/-- Witness for C7 at the 3-frame, loop-count-2 scenario: 6 flushes in the
order 0,1,2,0,1,2, each followed by a reposition. -/
theorem c7_loop_trace_check :
    (0 : Int) < gifLoopTwo.loopCount ∧
      (∃ t, animateTrace gifLoopTwo = some t ∧
        t.filterMap flushIdx =
          (List.range gifLoopTwo.loopCount.toNat).flatMap
            (fun _ => List.range gifLoopTwo.frames) ∧
        (t.filterMap flushIdx).length =
          gifLoopTwo.loopCount.toNat * gifLoopTwo.frames ∧
        (∀ k i, t[k]? = some (GEvent.flush i) →
          t[k + 2]? = some (GEvent.reset (rowsOf gifLoopTwo))) ∧
        (∀ c : Int, loopCond 0 c = true)) :=
  ⟨by decide, c7_loop_trace gifLoopTwo (by decide)⟩

/-- C8: once a RestoreBackground frame's iteration completes, every point of
the screen covered by the frame's bounds holds the precomputed background
buffer's pixel, and the resulting screen is independent of the frame's
pixel content. -/
theorem c8_background_restore (screen frame bg f2 : Grid) (x y : Int)
    (hb : bg.bounds = frame.bounds)
    (hf : inBounds frame.bounds x y = true)
    (hs : inBounds screen.bounds x y = true) :
    (backgroundIter screen frame bg).1.pix x y = bg.pix x y ∧
      (backgroundIter screen f2 bg).1 = (backgroundIter screen frame bg).1 := by
  constructor
  · show (drawExact screen bg).pix x y = bg.pix x y
    unfold drawExact
    rw [drawLoop_pix]
    have hmem : (x, y) ∈ rectPoints bg.bounds :=
      (mem_rectPoints bg.bounds x y).mpr (hb ▸ hf)
    simp [hmem, hs, Grid.atColor]
  · rfl

/-- A 2x2 screen holding color 0 everywhere. -/
def gridScreen : Grid :=
  { bounds := { minX := 0, minY := 0, maxX := 2, maxY := 2 }, pix := fun _ _ => 0 }

/-- A 1x1 frame holding color 1. -/
def gridFrame : Grid :=
  { bounds := { minX := 0, minY := 0, maxX := 1, maxY := 1 }, pix := fun _ _ => 1 }

/-- A 1x1 background buffer holding color 5. -/
def gridBg : Grid :=
  { bounds := { minX := 0, minY := 0, maxX := 1, maxY := 1 }, pix := fun _ _ => 5 }

/-- A different 1x1 frame holding color 7. -/
def gridFrame2 : Grid :=
  { bounds := { minX := 0, minY := 0, maxX := 1, maxY := 1 }, pix := fun _ _ => 7 }

/-- Witness for C8 at concrete grids. -/
theorem c8_background_restore_check :
    gridBg.bounds = gridFrame.bounds ∧
      inBounds gridFrame.bounds 0 0 = true ∧
      inBounds gridScreen.bounds 0 0 = true ∧
      ((backgroundIter gridScreen gridFrame gridBg).1.pix 0 0 = gridBg.pix 0 0 ∧
        (backgroundIter gridScreen gridFrame2 gridBg).1 =
          (backgroundIter gridScreen gridFrame gridBg).1) :=
  ⟨rfl, by decide, by decide,
    c8_background_restore gridScreen gridFrame gridBg gridFrame2 0 0 rfl
      (by decide) (by decide)⟩

/-- C9 counterexample: the claim fails twice at concrete inputs.  First,
`fps = 0` is non-positive, yet the rate-control path itself fails:
`time.Second / time.Duration(0)` is an integer division by zero, a panic
(modelled `none`).  Second, even with `fps = -1` (as fast as possible), not
every decoded frame is emitted: with two decoded frames and the consumer
busy at the second frame boundary, the select's default branch discards
frame 1 (`buf.Truncate(0)`), so only frame 0 is ever emitted. -/
theorem c9_counterexample :
    ((0 : Int) ≤ 0 ∧ mjpegDelayDur 0 = none) ∧
      ((-1 : Int) < 0 ∧
        readAllTrace (-1) (fun i => i == 0) 2 =
          some [MEvent.emit 0, MEvent.waitDelay (-1000000000), MEvent.discard 1] ∧
        (readAllTrace (-1) (fun i => i == 0) 2).map
            (fun t => t.filterMap emitIdx) = some [0]) := by
  refine ⟨⟨le_refl 0, rfl⟩, by decide, ?_, ?_⟩
  · decide
  · decide

/-- C9 amended: for every negative configured frame rate the rate-control
path never fails and the delay duration is non-positive, so pacing imposes
no wait and emission proceeds as fast as decoding allows; the emitted
frames are exactly the decoded frames at whose boundary the consumer was
ready to receive, in source order (a frame decoded while the consumer is
busy is discarded by the select's default branch, not emitted); in
particular, when the consumer is ready at every boundary, every decoded
frame is emitted. -/
theorem c9_rate_and_emission (fps : Int) (ready : Nat → Bool) (n : Nat)
    (h : fps < 0) :
    ∃ t, readAllTrace fps ready n = some t ∧
      t.filterMap emitIdx = (List.range n).filter (fun i => ready i) ∧
      (∀ d, MEvent.waitDelay d ∈ t → d ≤ 0) ∧
      ((∀ i, ready i = true) → t.filterMap emitIdx = List.range n) := by
  have hne : ¬(fps = 0) := by omega
  have hd : mjpegDelayDur fps = some ((1000000000 : Int).tdiv fps) := by
    unfold mjpegDelayDur
    rw [if_neg hne]
  have hdle : (1000000000 : Int).tdiv fps ≤ 0 := by
    have h1 : (0 : Int) ≤ (1000000000 : Int).tdiv (-fps) :=
      Int.tdiv_nonneg (by norm_num) (by omega)
    have h2 : (1000000000 : Int).tdiv fps = -((1000000000 : Int).tdiv (-fps)) := by
      conv_lhs => rw [← neg_neg fps]
      rw [Int.tdiv_neg]
    omega
  refine ⟨(List.range n).flatMap (fun i =>
      if ready i then [MEvent.emit i, MEvent.waitDelay ((1000000000 : Int).tdiv fps)]
      else [MEvent.discard i]), ?_, ?_, ?_, ?_⟩
  · unfold readAllTrace
    rw [hd]
  · exact filterMap_emitIdx_ready ready _ (List.range n)
  · intro d' hd'
    rw [List.mem_flatMap] at hd'
    obtain ⟨i, hi, hmem⟩ := hd'
    cases hr : ready i
    · rw [hr] at hmem
      simp at hmem
    · rw [hr] at hmem
      simp at hmem
      exact hmem ▸ hdle
  · intro hall
    rw [filterMap_emitIdx_ready]
    exact List.filter_eq_self.mpr (fun a _ => hall a)

/-- Witness for the amended C9 at `fps = -1` with an always-ready consumer
and two decoded frames: both frames are emitted, in order, with
non-positive waits. -/
theorem c9_rate_and_emission_check :
    (-1 : Int) < 0 ∧
      (∃ t, readAllTrace (-1) (fun _ => true) 2 = some t ∧
        t.filterMap emitIdx = (List.range 2).filter (fun _ => true) ∧
        (∀ d, MEvent.waitDelay d ∈ t → d ≤ 0) ∧
        ((∀ _i : Nat, true = true) → t.filterMap emitIdx = List.range 2)) :=
  ⟨by decide, c9_rate_and_emission (-1) (fun _ => true) 2 (by decide)⟩

/-- C10: an input that is already a converted dotmatrix Image is returned
unchanged by `convert` (same model, bounds, pixel buffer and stride), and
the configuration of the current encode session has no effect on it. -/
theorem c10_converted_passthrough (img : Image) (c c' : Config) :
    convert (GoImage.converted img) c = img ∧
      convert (GoImage.converted img) c = convert (GoImage.converted img) c' :=
  ⟨rfl, rfl⟩

end Dotmatrix
